import Mathlib

/-!
Verification of the listings-consistency agent (app.py, scrapers.py).

The extraction and normalization engine of scrapers.py and the comparator
loop of app.py are shallowly embedded below.  Python strings are modelled
as Lean String (a list of characters); Python character classes (\s, \d,
str.lower, str.upper, str.strip) are modelled on their ASCII meaning, which
is the range the application exercises; the Unicode extensions of those
classes are noted next to each definition.  The lxml/XPath engine is an
external library: a parsed document node is modelled by the Html type and
the outcome of doc.xpath(expr) is modelled by the XPathValue type, so that
extract_with_xpath is a function of that outcome exactly as the Python
function is a function of the value returned by doc.xpath.
-/

namespace ListingAgent

/-- Python whitespace test, ASCII part: space, tab, newline, carriage
return, vertical tab, form feed.  Models the str.strip default char class
and the regex class backslash-s of scrapers.py (their further Unicode
members are not exercised by the embedding). -/
def pySpace (c : Char) : Bool :=
  c.toNat = 32 || c.toNat = 9 || c.toNat = 10 || c.toNat = 13 || c.toNat = 11 || c.toNat = 12

/-- Python decimal-digit test, ASCII part: models the regex class
backslash-d used in normalize for phone values. -/
def pyDigit (c : Char) : Bool := 48 ≤ c.toNat && c.toNat ≤ 57

/-- ASCII letter test: models url[0].isascii() and url[0].isalpha() in the
scheme check of urllib.parse.urlsplit. -/
def pyAlpha (c : Char) : Bool :=
  (65 ≤ c.toNat && c.toNat ≤ 90) || (97 ≤ c.toNat && c.toNat ≤ 122)

/-- Characters allowed after the first character of a URL scheme
(urllib.parse: letters, digits, plus, minus, dot). -/
def schemeChar (c : Char) : Bool :=
  pyAlpha c || pyDigit c || c.toNat = 43 || c.toNat = 45 || c.toNat = 46

/-- ASCII lower-casing of one character: models Python str.lower, whose
Unicode case mappings beyond ASCII are not exercised here. -/
def lowChar (c : Char) : Char :=
  if 65 ≤ c.toNat ∧ c.toNat ≤ 90 then Char.ofNat (c.toNat + 32) else c

/-- ASCII upper-casing of one character: models Python str.upper, whose
Unicode case mappings beyond ASCII are not exercised here. -/
def upChar (c : Char) : Char :=
  if 97 ≤ c.toNat ∧ c.toNat ≤ 122 then Char.ofNat (c.toNat - 32) else c

/-- Drop leading characters satisfying p (one side of str.strip). -/
def trimLeft (p : Char → Bool) (l : List Char) : List Char := l.dropWhile p

/-- Drop trailing characters satisfying p (one side of str.strip). -/
def trimRight (p : Char → Bool) (l : List Char) : List Char :=
  (l.reverse.dropWhile p).reverse

/-- Drop characters satisfying p from both ends (Python str.strip with the
char class p). -/
def trimBoth (p : Char → Bool) (l : List Char) : List Char :=
  trimRight p (trimLeft p l)

/-- Python value.strip() with no argument: whitespace trimmed from both
ends. -/
def pyStrip (s : String) : String := ⟨trimBoth pySpace s.data⟩

/-- Python s.lower() on a whole string (ASCII model). -/
def pyLower (s : String) : String := ⟨s.data.map lowChar⟩

/-- Python s.upper() on a whole string (ASCII model). -/
def pyUpper (s : String) : String := ⟨s.data.map upChar⟩

/-- Replace every whitespace character by a plain space.  First half of the
model of re.sub applied with pattern backslash-s-plus and replacement " ". -/
def spaceNorm (l : List Char) : List Char :=
  l.map (fun c => if pySpace c then ' ' else c)

/-- Collapse runs of adjacent spaces to a single space.  Second half of the
model of re.sub with pattern backslash-s-plus: after spaceNorm, each
maximal whitespace run is a run of spaces, and squeezing those runs to one
space is exactly what the substitution by " " does. -/
def squeezeSpaces : List Char → List Char
  | [] => []
  | [c] => [c]
  | c1 :: c2 :: rest =>
    if c1 = ' ' ∧ c2 = ' ' then squeezeSpaces (c2 :: rest)
    else c1 :: squeezeSpaces (c2 :: rest)

/-- Model of re.sub applied to pattern backslash-s-plus with replacement
" ": every maximal whitespace run becomes a single space. -/
def collapseWS (l : List Char) : List Char := squeezeSpaces (spaceNorm l)

/-- Python s.split() with no argument: the maximal runs of non-whitespace
characters, in order, with no empty tokens. -/
def words : List Char → List (List Char)
  | [] => []
  | [c] => if pySpace c then [] else [[c]]
  | c1 :: c2 :: rest =>
    if pySpace c1 then words (c2 :: rest)
    else if pySpace c2 then [c1] :: words (c2 :: rest)
    else
      match words (c2 :: rest) with
      | [] => [[c1]]
      | w :: ws => (c1 :: w) :: ws

/-- Python " ".join of a token list. -/
def joinWords : List (List Char) → List Char
  | [] => []
  | [w] => w
  | w :: ws => w ++ ' ' :: joinWords ws

/-- The helper textify of scrapers.py applied to a string value:
" ".join(x.split()). -/
def pyTextify (s : String) : String := ⟨joinWords (words s.data)⟩

/-- Python substring containment (the in operator on str), on character
lists. -/
def containsSub (pat : List Char) : List Char → Bool
  | [] => pat.isEmpty
  | c :: rest => pat.isPrefixOf (c :: rest) || containsSub pat rest

/-- Python pattern in hay for strings. -/
def strContains (hay pat : String) : Bool := containsSub pat.data hay.data

/-- Python href.replace("tel:", ""): every non-overlapping occurrence of
"tel:" removed, scanning left to right. -/
def removeTel : List Char → List Char
  | 't' :: 'e' :: 'l' :: ':' :: rest => removeTel rest
  | c :: rest => c :: removeTel rest
  | [] => []

/-- Value of one hexadecimal digit, either case, as used by the
percent-escape table of urllib.parse.unquote. -/
def hexVal (c : Char) : Option Nat :=
  if 48 ≤ c.toNat ∧ c.toNat ≤ 57 then some (c.toNat - 48)
  else if 65 ≤ c.toNat ∧ c.toNat ≤ 70 then some (c.toNat - 55)
  else if 97 ≤ c.toNat ∧ c.toNat ≤ 102 then some (c.toNat - 87)
  else none

/-- Tokenize a string for percent-decoding: a percent sign followed by two
hex digits becomes the byte they denote, anything else stays a literal
character (urllib.parse.unquote keeps a malformed escape verbatim). -/
def pctTokens : List Char → List (Sum Nat Char)
  | '%' :: a :: b :: rest =>
    match hexVal a, hexVal b with
    | some x, some y => Sum.inl (16 * x + y) :: pctTokens rest
    | _, _ => Sum.inr '%' :: pctTokens (a :: b :: rest)
  | '%' :: rest => Sum.inr '%' :: pctTokens rest
  | c :: rest => Sum.inr c :: pctTokens rest
  | [] => []

/-- Replacement character U+FFFD produced by bytes.decode(errors =
"replace"). -/
def repChar : Char := Char.ofNat 0xFFFD

/-- UTF-8 continuation byte test. -/
def contByte (b : Nat) : Bool := 128 ≤ b && b ≤ 191

/-- UTF-8 decoding with replacement of maximal invalid subparts by U+FFFD,
as bytes.decode("utf-8", errors = "replace") does.  Literal ASCII bytes
cannot begin or continue a multi-byte sequence, so decoding the
percent-escaped byte runs separately from the literal characters around
them agrees with the single joint decode that unquote performs. -/
def utf8Decode : List Nat → List Char
  | [] => []
  | b :: rest =>
    if b < 128 then Char.ofNat b :: utf8Decode rest
    else if 194 ≤ b && b ≤ 223 then
      match rest with
      | c1 :: rest2 =>
        if contByte c1 then Char.ofNat ((b - 192) * 64 + (c1 - 128)) :: utf8Decode rest2
        else repChar :: utf8Decode (c1 :: rest2)
      | [] => [repChar]
    else if 224 ≤ b && b ≤ 239 then
      let lo := if b = 224 then 160 else 128
      let hi := if b = 237 then 159 else 191
      match rest with
      | c1 :: c2 :: rest3 =>
        if lo ≤ c1 && c1 ≤ hi then
          if contByte c2 then
            Char.ofNat ((b - 224) * 4096 + (c1 - 128) * 64 + (c2 - 128)) :: utf8Decode rest3
          else repChar :: utf8Decode (c2 :: rest3)
        else repChar :: utf8Decode (c1 :: c2 :: rest3)
      | [c1] => if lo ≤ c1 && c1 ≤ hi then [repChar] else repChar :: utf8Decode [c1]
      | [] => [repChar]
    else if 240 ≤ b && b ≤ 244 then
      let lo := if b = 240 then 144 else 128
      let hi := if b = 244 then 143 else 191
      match rest with
      | c1 :: c2 :: c3 :: rest4 =>
        if lo ≤ c1 && c1 ≤ hi then
          if contByte c2 then
            if contByte c3 then
              Char.ofNat
                ((b - 240) * 262144 + (c1 - 128) * 4096 + (c2 - 128) * 64 + (c3 - 128))
                :: utf8Decode rest4
            else repChar :: utf8Decode (c3 :: rest4)
          else repChar :: utf8Decode (c2 :: c3 :: rest4)
        else repChar :: utf8Decode (c1 :: c2 :: c3 :: rest4)
      | [c1, c2] =>
        if lo ≤ c1 && c1 ≤ hi then
          if contByte c2 then [repChar] else repChar :: utf8Decode [c2]
        else repChar :: utf8Decode [c1, c2]
      | [c1] => if lo ≤ c1 && c1 ≤ hi then [repChar] else repChar :: utf8Decode [c1]
      | [] => [repChar]
    else repChar :: utf8Decode rest

/-- Walk the percent-decoding tokens, accumulating each maximal run of
escaped bytes (in reverse) and decoding it as UTF-8 when the run ends. -/
def decodeRun (acc : List Nat) : List (Sum Nat Char) → List Char
  | [] => utf8Decode acc.reverse
  | Sum.inl b :: rest => decodeRun (b :: acc) rest
  | Sum.inr c :: rest => utf8Decode acc.reverse ++ c :: decodeRun [] rest

/-- urllib.parse.unquote with the default utf-8 encoding and replace error
handling. -/
def pyUnquote (s : String) : String := ⟨decodeRun [] (pctTokens s.data)⟩

/-- The plus-to-space replacement that parse_qsl applies to names and
values before unquoting them. -/
def plusToSpace (s : String) : String :=
  ⟨s.data.map (fun c => if c = '+' then ' ' else c)⟩

/-- Python list.split(sep) on a one-character separator: segments between
separators, keeping empty segments, and one empty segment for the empty
input. -/
def splitOnChar (c : Char) : List Char → List (List Char)
  | [] => [[]]
  | d :: rest =>
    match splitOnChar c rest with
    | [] => [[]]
    | g :: gs => if d = c then [] :: g :: gs else (d :: g) :: gs

/-- Python url.split(c, 1) guarded by an in-test: the part before the first
occurrence of c and the part after it, or the whole list and an empty
second part when c does not occur. -/
def splitOnceAt (c : Char) (l : List Char) : List Char × List Char :=
  let i := l.findIdx (· = c)
  if i < l.length then (l.take i, l.drop (i + 1)) else (l, [])

/-- The WHATWG C0-control-or-space class stripped from the left end of a
URL by urllib.parse.urlsplit. -/
def c0OrSpace (c : Char) : Bool := c.toNat ≤ 32

/-- The unsafe bytes (tab, carriage return, newline) removed everywhere in
a URL by urllib.parse.urlsplit. -/
def tabCrLf (c : Char) : Bool := c.toNat = 9 || c.toNat = 13 || c.toNat = 10

/-- The input sanitation urllib.parse.urlsplit performs before parsing:
the URL is only left-stripped (CPython deliberately preserves trailing
spaces and controls, so they stay in the parsed path or query), then tab,
carriage return and newline are removed everywhere. -/
def sanitizeUrl (l : List Char) : List Char :=
  (trimLeft c0OrSpace l).filter (fun c => !tabCrLf c)

/-- The scheme-splitting step of urllib.parse.urlsplit: a colon at a
positive index whose prefix is an ASCII letter followed by scheme
characters cuts off a lower-cased scheme. -/
def splitScheme (l : List Char) : List Char × List Char :=
  let i := l.findIdx (· = ':')
  if i < l.length ∧ 0 < i then
    match l with
    | [] => ([], [])
    | c0 :: _ =>
      if pyAlpha c0 && ((l.take i).drop 1).all schemeChar then
        ((l.take i).map lowChar, l.drop (i + 1))
      else ([], l)
  else ([], l)

/-- A character ending the netloc portion of a URL. -/
def netlocDelim (c : Char) : Bool := c = '/' || c = '?' || c = '#'

/-- Test for one hexadecimal digit, either case. -/
def hexDigitB (c : Char) : Bool := (hexVal c).isSome

/-- One decimal octet of a dotted-quad IPv4 address as ipaddress parses
it: one to three ASCII digits, no leading zero unless the octet is just
0, value at most 255. -/
def isDecOctet (l : List Char) : Bool :=
  !l.isEmpty && l.all pyDigit && decide (l.length ≤ 3)
    && !(decide (1 < l.length) && decide (l.head? = some '0'))
    && decide (l.foldl (fun acc c => acc * 10 + (c.toNat - 48)) 0 ≤ 255)

/-- A dotted-quad IPv4 address as ipaddress.IPv4Address accepts it:
exactly four valid octets separated by dots. -/
def isIPv4 (l : List Char) : Bool :=
  let parts := splitOnChar '.' l
  decide (parts.length = 4) && parts.all isDecOctet

/-- One hextet of an IPv6 address: one to four hex digits. -/
def isHextet (l : List Char) : Bool :=
  !l.isEmpty && decide (l.length ≤ 4) && l.all hexDigitB

/-- Validity of the colon-split part list of an IPv6 address, following
ipaddress._ip_int_from_string: at most nine parts; without a double colon
exactly eight valid hextets; with one interior empty part (the double
colon) the leading or trailing empty part may only abut it, at least one
hextet must be elided, and the remaining parts must be valid hextets. -/
def isIPv6Core (parts : List (List Char)) : Bool :=
  let n := parts.length
  if decide (9 < n) then false
  else
    match (List.range n).filter (fun i =>
      decide (1 ≤ i) && decide (i + 1 < n) && (parts.getD i [' ']).isEmpty) with
    | [] => decide (n = 8) && parts.all isHextet
    | [i] =>
      let hi : Option Nat :=
        if (parts.getD 0 [' ']).isEmpty then (if i = 1 then some 0 else none) else some i
      let lo : Option Nat :=
        if (parts.getD (n - 1) [' ']).isEmpty then
          (if i = n - 2 then some 0 else none)
        else some (n - i - 1)
      match hi, lo with
      | some h, some l =>
        decide (h + l ≤ 7) && (parts.take h).all isHextet
          && (parts.drop (n - l)).all isHextet
      | _, _ => false
    | _ => false

/-- A textual IPv6 address as ipaddress.IPv6Address accepts it (scope id
handled by the caller): at least three colon-split parts, an embedded
dotted-quad in the last part standing for two hextets. -/
def isIPv6 (l : List Char) : Bool :=
  let parts0 := splitOnChar ':' l
  if decide (parts0.length < 3) then false
  else
    match parts0.getLast? with
    | none => false
    | some last =>
      if last.contains '.' then
        isIPv4 last && isIPv6Core (parts0.dropLast ++ [['0'], ['0']])
      else isIPv6Core parts0

/-- The IPvFuture shape accepted by _check_bracketed_host: a lower-case v,
one or more hex digits, a dot, then at least one more character (the
regex dot does not match a newline, but newlines were removed by the URL
sanitation). -/
def isIPvFuture (l : List Char) : Bool :=
  match l with
  | 'v' :: rest =>
    let hexs := rest.takeWhile hexDigitB
    !hexs.isEmpty &&
      (match rest.drop hexs.length with
        | '.' :: tail => !tail.isEmpty
        | _ => false)
  | _ => false

/-- Validity of a bracketed host per urllib.parse._check_bracketed_host:
a host starting with v must have the IPvFuture shape; any other host,
after splitting off a percent-introduced scope id (which must be
non-empty and free of further percent signs), must be a valid IPv6
address (a dotted-quad IPv4 host raises just like an unparsable one). -/
def isBracketValid (host : List Char) : Bool :=
  match host with
  | 'v' :: rest => isIPvFuture ('v' :: rest)
  | _ =>
    let i := host.findIdx (· = '%')
    if i < host.length then
      let scope := host.drop (i + 1)
      !scope.isEmpty && !scope.contains '%' && isIPv6 (host.take i)
    else isIPv6 host

/-- The netloc-splitting step of urllib.parse.urlsplit: after a leading
double slash, the netloc runs to the next slash, question mark or hash.
Mismatched square brackets raise ValueError (Invalid IPv6 URL), and a
matched bracket pair must enclose a valid IPv6 or IPvFuture host, both
modelled by the error case.  The remaining NFKC netloc check of urlsplit
returns immediately for ASCII netlocs and raises only for certain
non-ASCII ones; it is not modelled, which is why the URL-dependent
theorems below restrict their inputs to ASCII. -/
def splitNetlocE (l : List Char) : Except Unit (List Char × List Char) :=
  if l.take 2 = ['/', '/'] then
    let rest := l.drop 2
    let netloc := rest.takeWhile (fun c => !netlocDelim c)
    if (netloc.contains '[') != (netloc.contains ']') then Except.error ()
    else if netloc.contains '[' then
      let bhost := (netloc.drop (netloc.findIdx (· = '[') + 1)).takeWhile (fun c => c ≠ ']')
      if isBracketValid bhost then Except.ok (netloc, rest.drop netloc.length)
      else Except.error ()
    else Except.ok (netloc, rest.drop netloc.length)
  else Except.ok ([], l)

/-- The schemes for which urllib.parse.urlparse splits params off the
path (the uses_params list of CPython 3.11, the empty string included). -/
def usesParams : List String :=
  ["", "ftp", "hdl", "prospero", "http", "imap", "https", "shttp", "rtsp",
   "rtsps", "rtspu", "sip", "sips", "mms", "sftp", "tel"]

/-- The params-splitting step of urllib.parse.urlparse: a semicolon in the
last path segment starts the params.  Applied by pyUrlparse only when the
scheme is in usesParams, as urlparse does. -/
def splitPathParams (l : List Char) : List Char × List Char :=
  if l.contains ';' then
    if l.contains '/' then
      let j := l.length - 1 - l.reverse.findIdx (· = '/')
      let k := (l.drop j).findIdx (· = ';')
      if k < (l.drop j).length then (l.take (j + k), l.drop (j + k + 1)) else (l, [])
    else
      let i := l.findIdx (· = ';')
      (l.take i, l.drop (i + 1))
  else (l, [])

/-- The six components returned by urllib.parse.urlparse. -/
structure UrlParts where
  scheme : String
  netloc : String
  path : String
  params : String
  query : String
  fragment : String
deriving DecidableEq

/-- urllib.parse.urlparse with default arguments: sanitize, split the
scheme, the netloc (which can fail), the fragment, the query, and — for
schemes in usesParams — the params.  The error case models the ValueError
that the caller catches. -/
def pyUrlparse (s : String) : Except Unit UrlParts :=
  let l := sanitizeUrl s.data
  let sr := splitScheme l
  match splitNetlocE sr.2 with
  | Except.error e => Except.error e
  | Except.ok (netloc, rest2) =>
    let fr := splitOnceAt '#' rest2
    let qr := splitOnceAt '?' fr.1
    let pp := if usesParams.contains ⟨sr.1⟩ then splitPathParams qr.1 else (qr.1, [])
    Except.ok ⟨⟨sr.1⟩, ⟨netloc⟩, ⟨pp.1⟩, ⟨pp.2⟩, ⟨qr.2⟩, ⟨fr.2⟩⟩

/-- urllib.parse.parse_qsl with default arguments: split the query on
ampersands, skip empty segments and segments without an equals sign or
with an empty value, and plus-decode and percent-decode each kept name and
value. -/
def parseQsl (qs : String) : List (String × String) :=
  if qs.data.isEmpty then []
  else
    (splitOnChar '&' qs.data).foldr
      (fun seg acc =>
        if seg.isEmpty then acc
        else
          let i := seg.findIdx (· = '=')
          if i < seg.length then
            let v := seg.drop (i + 1)
            if v.isEmpty then acc
            else (pyUnquote (plusToSpace ⟨seg.take i⟩), pyUnquote (plusToSpace ⟨v⟩)) :: acc
          else acc)
      []

/-- First value stored under key k by parse_qs, i.e. the value of the first
pair of parse_qsl carrying that name: models parse_qs(q).get(k, [None])[0]
when some pair with that name exists. -/
def qsFirst (pairs : List (String × String)) (k : String) : Option String :=
  (pairs.find? (fun p => p.1 == k)).map (fun p => p.2)

/-- normalize of scrapers.py: strip the value; empty goes to empty; phone
keeps the digits and the last ten of them when ten or more remain; the
four plain-text fields are whitespace-collapsed, stripped and upper-cased;
website_url is parsed as a URL and rebuilt as scheme://netloc+path with
the netloc lower-cased, trailing slashes stripped from the path and https
as default scheme, falling back to the stripped lower-cased raw string
when URL parsing fails; any other field kind is returned stripped. -/
def normalize (field value : String) : String :=
  let s := pyStrip value
  if s = "" then ""
  else if field = "phone" then
    let ds := s.data.filter pyDigit
    if 10 ≤ ds.length then ⟨ds.drop (ds.length - 10)⟩ else ⟨ds⟩
  else if field = "entity_name" || field = "address" || field = "hours"
      || field = "website_anchor" then
    pyUpper (pyStrip ⟨collapseWS s.data⟩)
  else if field = "website_url" then
    match pyUrlparse s with
    | Except.ok p =>
      (if p.scheme = "" then "https" else p.scheme) ++ "://"
        ++ pyLower p.netloc ++ ⟨trimRight (fun c => c = '/') p.path.data⟩
    | Except.error _ => pyLower (pyStrip s)
  else s

/-- canonicalize_site_href of scrapers.py: a falsy (absent or empty) href
becomes None; for the site yelp, when the substring biz_redir occurs in
the href, the href is URL-parsed, the first value of the url query
parameter is taken and, when truthy, unquoted and returned; in every other
case, including a parse failure, the href is returned unchanged. -/
def canonicalize_site_href (site : String) (href : Option String) : Option String :=
  match href with
  | none => none
  | some h =>
    if h = "" then none
    else if site = "yelp" && strContains h "biz_redir" then
      match pyUrlparse h with
      | Except.error _ => some h
      | Except.ok p =>
        match qsFirst (parseQsl p.query) "url" with
        | some t => if t ≠ "" then some (pyUnquote t) else some h
        | none => some h
    else some h

/-- A parsed HTML node as produced by lxml: an element with a tag, an
attribute list and children, or a text node.  The lxml HTML parser
lower-cases tag names, so the descendant query .//a selects exactly the
descendant elements whose stored tag is the string "a". -/
inductive Html where
  | el (tag : String) (attrs : List (String × String)) (children : List Html)
  | txt (s : String)

mutual

/-- Element.text_content() of lxml: the concatenation of all descendant
text, in document order. -/
def textContent : Html → String
  | Html.txt s => s
  | Html.el _ _ ch => textContentList ch

/-- text_content over a child list. -/
def textContentList : List Html → String
  | [] => ""
  | n :: rest => textContent n ++ textContentList rest

end

/-- Element.get(k) of lxml: the value of attribute k, or None. -/
def getAttr (attrs : List (String × String)) (k : String) : Option String :=
  (attrs.find? (fun p => p.1 == k)).map (fun p => p.2)

mutual

/-- The anchors inside one node, the node itself included when it is an
anchor, in document order: building block of the XPath query .//a. -/
def anchorsInNode : Html → List Html
  | Html.txt _ => []
  | Html.el t a ch => (if t = "a" then [Html.el t a ch] else []) ++ anchorsInList ch

/-- n.xpath(".//a") of lxml applied below a child list: every descendant
anchor element in document order. -/
def anchorsInList : List Html → List Html
  | [] => []
  | n :: rest => anchorsInNode n ++ anchorsInList rest

end

mutual

/-- Pre-order listing of one node and all its element descendants. -/
def preorderNode : Html → List Html
  | Html.txt _ => []
  | Html.el t a ch => Html.el t a ch :: preorderList ch

/-- Pre-order listing of all element descendants of a child list. -/
def preorderList : List Html → List Html
  | [] => []
  | n :: rest => preorderNode n ++ preorderList rest

end

/-- Whether a node is a hyperlink-bearing (anchor) element. -/
def isAnchorB : Html → Bool
  | Html.el t _ _ => t == "a"
  | Html.txt _ => false

/-- One entry of a node-set returned by doc.xpath: an element node; a
plain string (an attribute value or a text() result, which lxml hands
back as a str); a comment or processing-instruction node, whose tag
attribute is a factory function rather than a string; or a namespace
declaration, which lxml returns as a plain Python pair of prefix and URI
with neither a tag attribute nor a text_content method. -/
inductive XPathItem where
  | element (tag : String) (attrs : List (String × String)) (children : List Html)
  | str (s : String)
  | comment (text : String)
  | nstuple (pre uri : String)

/-- The value doc.xpath(expr) produces, as seen by extract_with_xpath: the
call raised (a malformed or failing expression), or returned a node-set
list, a plain string, a float (of which only zeroness matters downstream),
or a boolean. -/
inductive XPathValue where
  | evalErr
  | nodeset (items : List XPathItem)
  | str (s : String)
  | num (nonzero : Bool)
  | bool (b : Bool)

/-- An uncaught Python exception escaping extract_with_xpath. -/
inductive PyExc where
  | typeErr
  | attributeErr
deriving DecidableEq

/-- extract_with_xpath of scrapers.py as a function of the value produced
by doc.xpath(xpath_expr).  The try block covers only the doc.xpath call, so
an evaluation error yields ("", None); _first applies Python truthiness
and subscripting to the result: an empty node-set, empty string, zero
float or False gives None and hence ("", None); a non-empty string is
subscripted to its first character; a non-zero float or True is not
subscriptable and raises TypeError, which propagates.  A comment or
processing-instruction first match passes hasattr(n, "tag"), but its tag
is a function object, so getattr(n, "tag", "").lower() raises
AttributeError; a namespace pair fails hasattr and _textify calls
text_content() on a tuple, also raising AttributeError; both propagate.
For an element first match: an anchor yields its textified content and
href attribute, else the first descendant anchor yields its textified
content and href, else the element yields its textified content and
None. -/
def extract_with_xpath : XPathValue → Except PyExc (String × Option String)
  | XPathValue.evalErr => Except.ok ("", none)
  | XPathValue.nodeset items =>
    match items with
    | [] => Except.ok ("", none)
    | XPathItem.str s :: _ => Except.ok (pyTextify s, none)
    | XPathItem.comment _ :: _ => Except.error PyExc.attributeErr
    | XPathItem.nstuple _ _ :: _ => Except.error PyExc.attributeErr
    | XPathItem.element t a ch :: _ =>
      if pyLower t = "a" then
        Except.ok (pyTextify (textContent (Html.el t a ch)), getAttr a "href")
      else
        match anchorsInList ch with
        | Html.el t2 a2 ch2 :: _ =>
          Except.ok (pyTextify (textContent (Html.el t2 a2 ch2)), getAttr a2 "href")
        | _ => Except.ok (pyTextify (textContent (Html.el t a ch)), none)
  | XPathValue.str s =>
    match s.data with
    | [] => Except.ok ("", none)
    | c :: _ => Except.ok (pyTextify ⟨[c]⟩, none)
  | XPathValue.num nonzero =>
    if nonzero then Except.error PyExc.typeErr else Except.ok ("", none)
  | XPathValue.bool b =>
    if b then Except.error PyExc.typeErr else Except.ok ("", none)

/-- Python truthiness of an optional string: present and non-empty. -/
def optTruthy : Option String → Bool
  | none => false
  | some s => s != ""

/-- The yelp layout resolution of scrape_fields: a falsy detector entry
(absent or empty) selects type1 without evaluating anything; otherwise the
detector is evaluated and the layout is type1 when the text or the href is
truthy, else type2.  The argument detectorResult is the value doc.xpath
produces for the detector expression. -/
def resolveLayout (detector : Option String) (detectorResult : XPathValue) :
    Except PyExc String :=
  match detector with
  | none => Except.ok "type1"
  | some d =>
    if d = "" then Except.ok "type1"
    else
      match extract_with_xpath detectorResult with
      | Except.error e => Except.error e
      | Except.ok (txt, href) =>
        Except.ok (if (txt != "") || optTruthy href then "type1" else "type2")

/-- Python s.startswith(pre). -/
def pyStartsWith (s pre : String) : Bool := pre.data.isPrefixOf s.data

/-- The phone post-processing of scrape_fields: when the evaluated href is
truthy and starts with "tel:", the phone field is the href with every
occurrence of "tel:" removed (href.replace); otherwise it is the extracted
text. -/
def phoneResultField (txt : String) (href : Option String) : String :=
  match href with
  | some h =>
    if (h != "") && pyStartsWith h "tel:" then ⟨removeTel h.data⟩ else txt
  | none => txt

/-- The record of the six compared fields, in the shape of both the ssot
dict and the results dict of app.py. -/
structure FieldRecord where
  entity_name : String
  address : String
  phone : String
  website_url : String
  website_anchor : String
  hours : String
deriving DecidableEq

/-- Dictionary access data.get(f, "") on a six-field record. -/
def FieldRecord.get (r : FieldRecord) (f : String) : String :=
  if f = "entity_name" then r.entity_name
  else if f = "address" then r.address
  else if f = "phone" then r.phone
  else if f = "website_url" then r.website_url
  else if f = "website_anchor" then r.website_anchor
  else if f = "hours" then r.hours
  else ""

/-- The six field keys over which the dashboard scan loop iterates (the
keys of the ssot dict and of the results dict coincide). -/
def comparatorFields : List String :=
  ["entity_name", "address", "phone", "website_url", "website_anchor", "hours"]

/-- One entry of the matches dict in app.py: both sides normalized (the
fld.replace call there is the identity), equality tested when either
normalized value is truthy, True when both are empty. -/
def fieldMatch (data ssot : FieldRecord) (f : String) : Bool :=
  let ns := normalize f (data.get f)
  let nt := normalize f (ssot.get f)
  if (ns != "") || (nt != "") then ns == nt else true

/-- The overall flag of app.py: all field matches, gated by any raw
extracted value being truthy, else False. -/
def overallMatch (data ssot : FieldRecord) : Bool :=
  if comparatorFields.any (fun f => data.get f != "") then
    comparatorFields.all (fun f => fieldMatch data ssot f)
  else false

/-- The spec-side reading of the flattening of text used by the Locator
Evaluator: all whitespace runs collapsed to single spaces and surrounding
whitespace trimmed. -/
def flattenedText (s : String) : String := ⟨trimBoth pySpace (collapseWS s.data)⟩

/-- The spec-side reading of the first hyperlink-bearing descendant: the
first anchor in the pre-order listing of the descendants. -/
def firstAnchorDesc (children : List Html) : Option Html :=
  (preorderList children).find? isAnchorB

theorem toNat_ofNat_valid (n : Nat) (h : n.isValidChar) : (Char.ofNat n).toNat = n := by
  simp [Char.ofNat, h, Char.ofNatAux, Char.toNat, UInt32.toNat]

theorem space_toNat : (' ' : Char).toNat = 32 := rfl

theorem upChar_upChar (c : Char) : upChar (upChar c) = upChar c := by
  unfold upChar
  by_cases h : 97 ≤ c.toNat ∧ c.toNat ≤ 122
  · rw [if_pos h]
    have ht : (Char.ofNat (c.toNat - 32)).toNat = c.toNat - 32 :=
      toNat_ofNat_valid _ (Or.inl (by omega))
    rw [if_neg]
    rw [ht]
    omega
  · rw [if_neg h, if_neg h]

theorem pySpace_upChar (c : Char) : pySpace (upChar c) = pySpace c := by
  unfold upChar
  by_cases h : 97 ≤ c.toNat ∧ c.toNat ≤ 122
  · rw [if_pos h]
    have ht : (Char.ofNat (c.toNat - 32)).toNat = c.toNat - 32 :=
      toNat_ofNat_valid _ (Or.inl (by omega))
    have h1 : pySpace (Char.ofNat (c.toNat - 32)) = false := by
      simp [pySpace, ht]; omega
    have h2 : pySpace c = false := by
      simp [pySpace]; omega
    rw [h1, h2]
  · rw [if_neg h]

theorem upChar_space_iff (c : Char) : upChar c = ' ' ↔ c = ' ' := by
  unfold upChar
  by_cases h : 97 ≤ c.toNat ∧ c.toNat ≤ 122
  · rw [if_pos h]
    constructor
    · intro he
      have hn := congrArg Char.toNat he
      rw [toNat_ofNat_valid _ (Or.inl (by omega)), space_toNat] at hn
      omega
    · intro he
      exfalso
      rw [he] at h
      rw [space_toNat] at h
      omega
  · rw [if_neg h]

theorem pyDigit_not_space (c : Char) (h : pyDigit c = true) : pySpace c = false := by
  simp [pyDigit] at h
  simp [pySpace]
  omega

theorem pySpace_not_digit (c : Char) (h : pySpace c = true) : pyDigit c = false := by
  simp [pySpace] at h
  simp [pyDigit]
  omega

theorem dropWhile_head?_false {p : Char → Bool} {l : List Char} {c : Char}
    (h : (l.dropWhile p).head? = some c) : p c = false := by
  induction l with
  | nil => simp at h
  | cons a l ih =>
    rw [List.dropWhile_cons] at h
    by_cases ha : p a
    · rw [if_pos ha] at h; exact ih h
    · rw [if_neg ha] at h
      simp at h
      cases h
      simpa using ha

theorem dropWhile_eq_self_of_false {p : Char → Bool} {l : List Char}
    (h : ∀ c ∈ l, p c = false) : l.dropWhile p = l := by
  cases l with
  | nil => rfl
  | cons a l =>
    rw [List.dropWhile_cons, if_neg]
    simp [h a (by simp)]

theorem trimRight_cons (p : Char → Bool) (c : Char) (l : List Char) :
    trimRight p (c :: l) =
      if trimRight p l = [] then (if p c then [] else [c]) else c :: trimRight p l := by
  unfold trimRight
  rw [List.reverse_cons, List.dropWhile_append]
  by_cases h : (l.reverse.dropWhile p) = []
  · rw [h]
    by_cases hc : p c <;> simp [List.dropWhile_cons, hc]
  · have hne : (l.reverse.dropWhile p).isEmpty = false := by
      simpa [List.isEmpty_iff] using h
    have hb2 : ¬ ((l.reverse.dropWhile p).reverse = []) := by
      simpa [List.reverse_eq_nil_iff] using h
    rw [hne, if_neg hb2]
    simp

theorem head?_trimRight {p : Char → Bool} {l : List Char}
    (h : trimRight p l ≠ []) : (trimRight p l).head? = l.head? := by
  induction l with
  | nil => simp [trimRight] at h
  | cons a l ih =>
    rw [trimRight_cons] at h ⊢
    by_cases h0 : trimRight p l = []
    · rw [if_pos h0] at h ⊢
      by_cases ha : p a
      · rw [if_pos ha] at h; exact absurd rfl h
      · rw [if_neg ha]; rfl
    · rw [if_neg h0] at h ⊢; rfl

theorem getLast?_trimRight_false {p : Char → Bool} {l : List Char} {c : Char}
    (h : (trimRight p l).getLast? = some c) : p c = false := by
  unfold trimRight at h
  rw [List.getLast?_reverse] at h
  exact dropWhile_head?_false h

theorem trimBoth_eq_self_of_edges {p : Char → Bool} {l : List Char}
    (h1 : ∀ c, l.head? = some c → p c = false)
    (h2 : ∀ c, l.getLast? = some c → p c = false) :
    trimBoth p l = l := by
  have hleft : trimLeft p l = l := by
    cases l with
    | nil => rfl
    | cons a t =>
      unfold trimLeft
      rw [List.dropWhile_cons, if_neg]
      simp [h1 a rfl]
  unfold trimBoth
  rw [hleft]
  unfold trimRight
  have hrev : l.reverse.dropWhile p = l.reverse := by
    cases hr : l.reverse with
    | nil => rfl
    | cons a t =>
      rw [List.dropWhile_cons, if_neg]
      have hl : l.getLast? = some a := by
        rw [← List.head?_reverse, hr]; rfl
      simp [h2 a hl]
  rw [hrev, List.reverse_reverse]

theorem trimBoth_idem (p : Char → Bool) (l : List Char) :
    trimBoth p (trimBoth p l) = trimBoth p l := by
  by_cases hm : trimBoth p l = []
  · rw [hm]; rfl
  · apply trimBoth_eq_self_of_edges
    · intro c hc
      exact dropWhile_head?_false ((head?_trimRight hm).symm.trans hc)
    · intro c hc
      exact getLast?_trimRight_false hc

theorem trimBoth_eq_self_of_all_false {p : Char → Bool} {l : List Char}
    (h : ∀ c ∈ l, p c = false) : trimBoth p l = l := by
  apply trimBoth_eq_self_of_edges
  · intro c hc
    exact h c (List.mem_of_mem_head? (by rw [hc]; rfl))
  · intro c hc
    exact h c (List.mem_of_mem_getLast? (by rw [hc]; rfl))

theorem trimBoth_sublist (p : Char → Bool) (l : List Char) :
    (trimBoth p l).Sublist l := by
  have h1 : (trimLeft p l).Sublist l := List.dropWhile_sublist p
  have h2 : (trimRight p (trimLeft p l)).Sublist (trimLeft p l) := by
    have h3 : ((trimLeft p l).reverse.dropWhile p).Sublist (trimLeft p l).reverse :=
      List.dropWhile_sublist p
    have h4 := List.Sublist.reverse h3
    rw [List.reverse_reverse] at h4
    exact h4
  exact h2.trans h1

theorem mem_of_mem_trimBoth {p : Char → Bool} {l : List Char} {c : Char}
    (h : c ∈ trimBoth p l) : c ∈ l :=
  (trimBoth_sublist p l).subset h

theorem filter_dropWhile {p q : Char → Bool} (hpq : ∀ c, q c = true → p c = false)
    (l : List Char) : (l.dropWhile q).filter p = l.filter p := by
  induction l with
  | nil => rfl
  | cons a l ih =>
    rw [List.dropWhile_cons]
    by_cases ha : q a
    · rw [if_pos ha, ih]
      simp [List.filter_cons, hpq a ha]
    · rw [if_neg ha]

theorem filter_trimBoth {p q : Char → Bool} (hpq : ∀ c, q c = true → p c = false)
    (l : List Char) : (trimBoth q l).filter p = l.filter p := by
  unfold trimBoth trimRight trimLeft
  rw [List.filter_reverse, filter_dropWhile hpq, ← List.filter_reverse,
    List.reverse_reverse, filter_dropWhile hpq]

theorem pyStrip_pyStrip (s : String) : pyStrip (pyStrip s) = pyStrip s := by
  unfold pyStrip
  exact congrArg String.mk (trimBoth_idem pySpace s.data)

theorem head?_trimBoth_false {p : Char → Bool} {l : List Char} {c : Char}
    (h : (trimBoth p l).head? = some c) : p c = false := by
  have hne : trimBoth p l ≠ [] := by
    intro h0; rw [h0] at h; simp at h
  exact dropWhile_head?_false ((head?_trimRight hne).symm.trans h)

theorem mem_dropWhile_of_false {p : Char → Bool} {l : List Char} {c : Char}
    (hm : c ∈ l) (hc : p c = false) : c ∈ l.dropWhile p := by
  induction l with
  | nil => simp at hm
  | cons a l ih =>
    rw [List.dropWhile_cons]
    by_cases ha : p a
    · rw [if_pos ha]
      rcases List.mem_cons.mp hm with h1 | h1
      · rw [h1] at hc; rw [hc] at ha; simp at ha
      · exact ih h1
    · rw [if_neg ha]; exact hm

theorem mem_trimBoth_of_false {p : Char → Bool} {l : List Char} {c : Char}
    (hm : c ∈ l) (hc : p c = false) : c ∈ trimBoth p l := by
  unfold trimBoth trimRight trimLeft
  rw [List.mem_reverse]
  apply mem_dropWhile_of_false _ hc
  rw [List.mem_reverse]
  exact mem_dropWhile_of_false hm hc

theorem map_id_of_fix {f : Char → Char} {l : List Char}
    (h : ∀ a ∈ l, f a = a) : l.map f = l := by
  induction l with
  | nil => rfl
  | cons a l ih =>
    rw [List.map_cons, h a (by simp), ih]
    intro b hb
    exact h b (by simp [hb])

theorem trimBoth_cons_of_true {p : Char → Bool} {c : Char} {l : List Char}
    (h : p c = true) : trimBoth p (c :: l) = trimBoth p l := by
  unfold trimBoth trimLeft
  rw [List.dropWhile_cons, if_pos h]

theorem trimBoth_cons_of_false {p : Char → Bool} {c : Char} {l : List Char}
    (h : p c = false) : trimBoth p (c :: l) = c :: trimRight p l := by
  unfold trimBoth trimLeft
  rw [List.dropWhile_cons, if_neg (by simp [h])]
  rw [trimRight_cons]
  by_cases h0 : trimRight p l = []
  · rw [if_pos h0, if_neg (by simp [h]), h0]
  · rw [if_neg h0]

/-- The relation holding between adjacent characters of a whitespace
collapsed list: not both plain spaces. -/
def spacePair (a b : Char) : Prop := ¬(a = ' ' ∧ b = ' ')

theorem squeeze_head (c : Char) (l : List Char) :
    (squeezeSpaces (c :: l)).head? = some c := by
  induction l generalizing c with
  | nil => rfl
  | cons d rest ih =>
    unfold squeezeSpaces
    by_cases h : c = ' ' ∧ d = ' '
    · rw [if_pos h, ih d, h.1, h.2]
    · rw [if_neg h]; rfl

theorem squeeze_cons_shape (c : Char) (l : List Char) :
    ∃ v, squeezeSpaces (c :: l) = c :: v := by
  cases hs : squeezeSpaces (c :: l) with
  | nil =>
    have := squeeze_head c l
    rw [hs] at this; simp at this
  | cons a v =>
    have := squeeze_head c l
    rw [hs] at this
    simp at this
    rw [this]
    exact ⟨v, rfl⟩

theorem squeeze_chain (l : List Char) : (squeezeSpaces l).Chain' spacePair := by
  induction l with
  | nil => simp [squeezeSpaces]
  | cons c1 t ih =>
    cases t with
    | nil => exact List.chain'_singleton c1
    | cons c2 rest =>
      unfold squeezeSpaces
      by_cases h : c1 = ' ' ∧ c2 = ' '
      · rw [if_pos h]; exact ih
      · rw [if_neg h]
        obtain ⟨v, hv⟩ := squeeze_cons_shape c2 rest
        rw [hv]
        rw [List.chain'_cons]
        refine ⟨h, ?_⟩
        rw [← hv]
        exact ih

theorem squeeze_eq_self {l : List Char} (h : l.Chain' spacePair) :
    squeezeSpaces l = l := by
  induction l with
  | nil => rfl
  | cons c1 t ih =>
    cases t with
    | nil => rfl
    | cons c2 rest =>
      unfold squeezeSpaces
      rw [List.chain'_cons] at h
      rw [if_neg h.1, ih h.2]

theorem mem_of_mem_squeeze {l : List Char} {c : Char}
    (h : c ∈ squeezeSpaces l) : c ∈ l := by
  induction l with
  | nil => exact h
  | cons c1 t ih =>
    cases t with
    | nil => exact h
    | cons c2 rest =>
      unfold squeezeSpaces at h
      by_cases hc : c1 = ' ' ∧ c2 = ' '
      · rw [if_pos hc] at h
        exact List.mem_cons_of_mem c1 (ih h)
      · rw [if_neg hc] at h
        rcases List.mem_cons.mp h with h1 | h1
        · rw [h1]; simp
        · exact List.mem_cons_of_mem c1 (ih h1)

theorem chain_trimBoth {l : List Char} (h : l.Chain' spacePair) :
    (trimBoth pySpace l).Chain' spacePair := by
  unfold trimBoth trimRight trimLeft
  have h1 : (l.dropWhile pySpace).Chain' spacePair :=
    h.suffix (List.dropWhile_suffix pySpace)
  have h2 : ((l.dropWhile pySpace).reverse).Chain' (flip spacePair) :=
    (List.chain'_reverse).mpr h1
  have h3 : (((l.dropWhile pySpace).reverse).dropWhile pySpace).Chain' (flip spacePair) :=
    h2.suffix (List.dropWhile_suffix pySpace)
  have h4 := (List.chain'_reverse).mpr h3
  exact List.Chain'.imp (fun a b hab => hab) h4

theorem chain_map_upChar {l : List Char} (h : l.Chain' spacePair) :
    (l.map upChar).Chain' spacePair := by
  rw [List.chain'_map]
  refine List.Chain'.imp ?_ h
  intro a b hab
  unfold spacePair at *
  rw [upChar_space_iff, upChar_space_iff]
  exact hab

theorem bool_false_of_not {b : Bool} (h : ¬(b = true)) : b = false := by
  cases b
  · rfl
  · exact absurd rfl h

theorem mem_spaceNorm_space {x : List Char} {c : Char}
    (h : c ∈ spaceNorm x) (hs : pySpace c = true) : c = ' ' := by
  unfold spaceNorm at h
  rcases List.mem_map.mp h with ⟨a, _, ha⟩
  by_cases hpa : pySpace a = true
  · rw [if_pos hpa] at ha
    exact ha.symm
  · rw [if_neg hpa] at ha
    rw [← ha] at hs
    exact absurd hs hpa

theorem spaceNorm_cons (c : Char) (x : List Char) :
    spaceNorm (c :: x) = (if pySpace c = true then ' ' else c) :: spaceNorm x := rfl

theorem words_cons_cons (c1 c2 : Char) (rest : List Char) :
    words (c1 :: c2 :: rest) =
      if pySpace c1 = true then words (c2 :: rest)
      else if pySpace c2 = true then [c1] :: words (c2 :: rest)
      else
        match words (c2 :: rest) with
        | [] => [[c1]]
        | w :: ws => (c1 :: w) :: ws := by
  rfl

theorem squeeze_cons_cons (c1 c2 : Char) (rest : List Char) :
    squeezeSpaces (c1 :: c2 :: rest) =
      if c1 = ' ' ∧ c2 = ' ' then squeezeSpaces (c2 :: rest)
      else c1 :: squeezeSpaces (c2 :: rest) := by
  rfl

theorem words_mem_ne_nil {l : List Char} : ∀ w ∈ words l, w ≠ [] := by
  induction l with
  | nil => simp [words]
  | cons c1 t ih =>
    cases t with
    | nil =>
      intro w hw
      unfold words at hw
      by_cases h : pySpace c1 = true
      · rw [if_pos h] at hw; simp at hw
      · rw [if_neg h] at hw
        simp at hw
        rw [hw]
        simp
    | cons c2 rest =>
      intro w hw
      rw [words_cons_cons] at hw
      by_cases h1 : pySpace c1 = true
      · rw [if_pos h1] at hw; exact ih w hw
      · rw [if_neg h1] at hw
        by_cases h2 : pySpace c2 = true
        · rw [if_pos h2] at hw
          rcases List.mem_cons.mp hw with he | he
          · rw [he]; simp
          · exact ih w he
        · rw [if_neg h2] at hw
          cases hws : words (c2 :: rest) with
          | nil =>
            rw [hws] at hw
            simp at hw
            rw [hw]
            simp
          | cons w0 ws0 =>
            rw [hws] at hw
            rcases List.mem_cons.mp hw with he | he
            · rw [he]
              have := ih w0 (by rw [hws]; simp)
              simp
            · exact ih w (by rw [hws]; exact List.mem_cons_of_mem w0 he)

theorem words_ne_nil {c : Char} {l : List Char} (h : pySpace c = false) :
    words (c :: l) ≠ [] := by
  cases l with
  | nil =>
    unfold words
    rw [if_neg (by simp [h])]
    simp
  | cons c2 rest =>
    rw [words_cons_cons]
    rw [if_neg (by simp [h])]
    by_cases h2 : pySpace c2 = true
    · rw [if_pos h2]; simp
    · rw [if_neg h2]
      cases words (c2 :: rest) <;> simp

theorem joinWords_ne_nil {ws : List (List Char)} (hne : ws ≠ [])
    (hw : ∀ w ∈ ws, w ≠ []) : joinWords ws ≠ [] := by
  cases ws with
  | nil => exact absurd rfl hne
  | cons w ws0 =>
    cases ws0 with
    | nil => exact hw w (by simp)
    | cons w2 ws1 =>
      show w ++ ' ' :: joinWords (w2 :: ws1) ≠ []
      simp

theorem joinWords_cons_cons (c : Char) (w : List Char) (ws : List (List Char)) :
    joinWords ((c :: w) :: ws) = c :: joinWords (w :: ws) := by
  cases ws with
  | nil => rfl
  | cons w2 ws1 =>
    show (c :: w) ++ ' ' :: joinWords (w2 :: ws1) = c :: (w ++ ' ' :: joinWords (w2 :: ws1))
    simp

theorem textify_flatten (l : List Char) :
    joinWords (words l) = trimBoth pySpace (collapseWS l) := by
  induction l with
  | nil => rfl
  | cons c1 t ih =>
    cases t with
    | nil =>
      by_cases h1 : pySpace c1 = true
      · unfold words
        rw [if_pos h1]
        unfold collapseWS
        rw [spaceNorm_cons, if_pos h1]
        show ([] : List Char) = trimBoth pySpace [' ']
        rfl
      · unfold words
        rw [if_neg h1]
        unfold collapseWS
        rw [spaceNorm_cons, if_neg h1]
        show [c1] = trimBoth pySpace [c1]
        rw [trimBoth_eq_self_of_all_false]
        intro c hc
        simp at hc
        rw [hc]
        exact bool_false_of_not h1
    | cons c2 rest =>
      rw [words_cons_cons]
      unfold collapseWS
      rw [spaceNorm_cons]
      by_cases h1 : pySpace c1 = true
      · rw [if_pos h1, if_pos h1, ih]
        rw [spaceNorm_cons]
        by_cases h2 : pySpace c2 = true
        · rw [if_pos h2, squeeze_cons_cons, if_pos ⟨rfl, rfl⟩]
          unfold collapseWS
          rw [spaceNorm_cons, if_pos h2]
        · rw [if_neg h2, squeeze_cons_cons,
            if_neg (fun hh => h2 (by rw [hh.2]; decide))]
          rw [trimBoth_cons_of_true (by decide)]
          unfold collapseWS
          rw [spaceNorm_cons, if_neg h2]
      · have h1f : pySpace c1 = false := bool_false_of_not h1
        have hc1 : c1 ≠ ' ' := by
          intro hh
          rw [hh] at h1
          exact h1 (by decide)
        rw [if_neg h1, if_neg h1]
        by_cases h2 : pySpace c2 = true
        · -- a word boundary: c1 ends a token, c2 starts whitespace
          rw [if_pos h2, spaceNorm_cons, if_pos h2]
          rw [squeeze_cons_cons, if_neg (fun hh => hc1 hh.1)]
          rw [trimBoth_cons_of_false h1f]
          obtain ⟨v, hv⟩ := squeeze_cons_shape ' ' (spaceNorm rest)
          have hu : collapseWS (c2 :: rest) = squeezeSpaces (' ' :: spaceNorm rest) := by
            unfold collapseWS
            rw [spaceNorm_cons, if_pos h2]
          have hvhead : ∀ w0 v2, v = w0 :: v2 → pySpace w0 = false := by
            intro w0 v2 he
            have hch := squeeze_chain (' ' :: spaceNorm rest)
            rw [hv, he, List.chain'_cons] at hch
            have hne : w0 ≠ ' ' := fun hw0 => hch.1 ⟨rfl, hw0⟩
            by_cases hsp : pySpace w0 = true
            · exfalso
              apply hne
              have hm : w0 ∈ squeezeSpaces (' ' :: spaceNorm rest) := by
                rw [hv, he]; simp
              rcases List.mem_cons.mp (mem_of_mem_squeeze hm) with hx | hx
              · exact hx
              · exact mem_spaceNorm_space hx hsp
            · exact bool_false_of_not hsp
          have htlv : trimLeft pySpace v = v := by
            cases hvv : v with
            | nil => rfl
            | cons w0 v2 =>
              unfold trimLeft
              rw [List.dropWhile_cons, if_neg (by simp [hvhead w0 v2 hvv])]
          have hIH : joinWords (words (c2 :: rest)) = trimRight pySpace v := by
            rw [ih, hu, hv, trimBoth_cons_of_true (by decide)]
            show trimRight pySpace (trimLeft pySpace v) = trimRight pySpace v
            rw [htlv]
          have hTR : trimRight pySpace (squeezeSpaces (' ' :: spaceNorm rest)) =
              if trimRight pySpace v = [] then [] else ' ' :: trimRight pySpace v := by
            rw [hv, trimRight_cons]
            by_cases hz : trimRight pySpace v = []
            · rw [if_pos hz, if_pos hz, if_pos (by decide)]
            · rw [if_neg hz, if_neg hz]
          rw [hTR]
          cases hW : words (c2 :: rest) with
          | nil =>
            have : trimRight pySpace v = [] := by
              rw [← hIH, hW]; rfl
            rw [if_pos this]
            rfl
          | cons w0 ws0 =>
            have hWne : joinWords (words (c2 :: rest)) ≠ [] := by
              apply joinWords_ne_nil
              · rw [hW]; simp
              · exact words_mem_ne_nil
            have : trimRight pySpace v ≠ [] := by rw [← hIH]; exact hWne
            rw [if_neg this]
            rw [← hIH, hW]
            show joinWords ([c1] :: w0 :: ws0) = c1 :: ' ' :: joinWords (w0 :: ws0)
            rfl
        · -- two non-space characters: c1 extends the first token
          rw [if_neg h2, spaceNorm_cons, if_neg h2]
          rw [squeeze_cons_cons, if_neg (fun hh => hc1 hh.1)]
          rw [trimBoth_cons_of_false h1f]
          have h2f : pySpace c2 = false := bool_false_of_not h2
          have hu : collapseWS (c2 :: rest) = squeezeSpaces (c2 :: spaceNorm rest) := by
            unfold collapseWS
            rw [spaceNorm_cons, if_neg h2]
          obtain ⟨v2, hv2⟩ := squeeze_cons_shape c2 (spaceNorm rest)
          have hIH : joinWords (words (c2 :: rest)) =
              trimRight pySpace (squeezeSpaces (c2 :: spaceNorm rest)) := by
            rw [ih, hu]
            show trimRight pySpace (trimLeft pySpace (squeezeSpaces (c2 :: spaceNorm rest)))
                = trimRight pySpace (squeezeSpaces (c2 :: spaceNorm rest))
            rw [hv2]
            unfold trimLeft
            rw [List.dropWhile_cons, if_neg (by simp [h2f])]
          cases hW : words (c2 :: rest) with
          | nil => exact absurd hW (words_ne_nil h2f)
          | cons w0 ws0 =>
            rw [joinWords_cons_cons]
            rw [← hW, hIH]

theorem pyTextify_eq_flattened (s : String) : pyTextify s = flattenedText s :=
  congrArg String.mk (textify_flatten s.data)

theorem head?_filter_eq_find? (p : Html → Bool) (l : List Html) :
    (l.filter p).head? = l.find? p := by
  induction l with
  | nil => rfl
  | cons a l ih =>
    rw [List.filter_cons]
    by_cases h : p a
    · rw [if_pos h, List.find?_cons_of_pos _ h]
      rfl
    · rw [if_neg (by simp [h]), List.find?_cons_of_neg _ (by simp [h]), ih]

mutual

theorem anchorsInNode_eq (n : Html) :
    anchorsInNode n = (preorderNode n).filter isAnchorB := by
  cases n with
  | txt s => simp [anchorsInNode, preorderNode]
  | el t a ch =>
    rw [show anchorsInNode (Html.el t a ch)
        = (if t = "a" then [Html.el t a ch] else []) ++ anchorsInList ch from rfl]
    rw [show preorderNode (Html.el t a ch) = Html.el t a ch :: preorderList ch from rfl]
    rw [List.filter_cons, anchorsInList_eq ch]
    by_cases h : t = "a"
    · rw [if_pos h, if_pos (by simp [isAnchorB, h])]
      rfl
    · rw [if_neg h, if_neg (by simp [isAnchorB, h])]
      rfl

theorem anchorsInList_eq (l : List Html) :
    anchorsInList l = (preorderList l).filter isAnchorB := by
  cases l with
  | nil => rfl
  | cons n rest =>
    rw [show anchorsInList (n :: rest) = anchorsInNode n ++ anchorsInList rest from rfl]
    rw [show preorderList (n :: rest) = preorderNode n ++ preorderList rest from rfl]
    rw [List.filter_append, anchorsInNode_eq n, anchorsInList_eq rest]

end

theorem firstAnchorDesc_eq_head? (ch : List Html) :
    firstAnchorDesc ch = (anchorsInList ch).head? := by
  unfold firstAnchorDesc
  rw [anchorsInList_eq, head?_filter_eq_find?]

/-- All characters of a string are ASCII.  On this domain the embedded
urllib model is exact: the NFKC netloc check of urlsplit returns
immediately for ASCII netlocs, and the ASCII case mappings agree with
Python str.lower and str.upper. -/
def isAscii (s : String) : Bool := s.data.all (fun c => c.toNat ≤ 127)

theorem extract_str_eq (s : String) :
    extract_with_xpath (XPathValue.str s) =
      (match s.data with
        | [] => Except.ok ("", none)
        | c :: _ => Except.ok (pyTextify ⟨[c]⟩, none)) := rfl

theorem extract_element_eq (t : String) (a : List (String × String)) (ch : List Html)
    (rest : List XPathItem) :
    extract_with_xpath (XPathValue.nodeset (XPathItem.element t a ch :: rest)) =
      if pyLower t = "a" then
        Except.ok (pyTextify (textContent (Html.el t a ch)), getAttr a "href")
      else
        match anchorsInList ch with
        | Html.el t2 a2 ch2 :: _ =>
          Except.ok (pyTextify (textContent (Html.el t2 a2 ch2)), getAttr a2 "href")
        | _ => Except.ok (pyTextify (textContent (Html.el t a ch)), none) := rfl

theorem mem_squeeze_of_ne_space {l : List Char} {c : Char}
    (hc : c ≠ ' ') (h : c ∈ l) : c ∈ squeezeSpaces l := by
  induction l with
  | nil => exact h
  | cons c1 t ih =>
    cases t with
    | nil => exact h
    | cons c2 rest =>
      rw [squeeze_cons_cons]
      by_cases hp : c1 = ' ' ∧ c2 = ' '
      · rw [if_pos hp]
        rcases List.mem_cons.mp h with he | he
        · rw [he] at hc
          exact absurd hp.1 hc
        · exact ih he
      · rw [if_neg hp]
        rcases List.mem_cons.mp h with he | he
        · rw [he]; simp
        · exact List.mem_cons_of_mem c1 (ih he)

theorem containsSub_cons (pat : List Char) (c : Char) (rest : List Char) :
    containsSub pat (c :: rest) = (pat.isPrefixOf (c :: rest) || containsSub pat rest) := rfl

theorem removeTel_eq_self {l : List Char}
    (h : containsSub "tel:".data l = false) : removeTel l = l := by
  induction l with
  | nil => rfl
  | cons c rest ih =>
    rw [containsSub_cons] at h
    rcases Bool.or_eq_false_iff.mp h with ⟨hp, ht⟩
    rw [removeTel.eq_def]
    split
    · next _ _ heq =>
      rw [heq] at hp
      simp [List.isPrefixOf] at hp
    · next _ c0 rest0 _ heq =>
      injection heq with h1 h2
      subst h1
      subst h2
      rw [ih ht]
    · next _ heq =>
      simp at heq

/-- C1: in the Consistency Comparator, each of the six fields matches iff
the two normalized values are equal or both empty, and the overall match
is true iff every field matches and at least one raw extracted field value
is non-empty; in particular an all-empty extracted record yields overall
false. -/
theorem C1_comparator_match (data ssot : FieldRecord) :
    (∀ f ∈ comparatorFields,
      (fieldMatch data ssot f = true ↔
        (normalize f (data.get f) = normalize f (ssot.get f) ∨
          (normalize f (data.get f) = "" ∧ normalize f (ssot.get f) = ""))))
  ∧ (overallMatch data ssot = true ↔
      ((∀ f ∈ comparatorFields, fieldMatch data ssot f = true) ∧
        (∃ f ∈ comparatorFields, data.get f ≠ "")))
  ∧ ((∀ f ∈ comparatorFields, data.get f = "") → overallMatch data ssot = false) := by
  refine ⟨?_, ?_, ?_⟩
  · intro f _
    simp only [fieldMatch]
    by_cases h1 : normalize f (data.get f) = "" <;>
      by_cases h2 : normalize f (ssot.get f) = "" <;>
        simp [h1, h2]
  · unfold overallMatch
    by_cases ha : comparatorFields.any (fun f => data.get f != "") = true
    · rw [if_pos ha]
      constructor
      · intro hall
        refine ⟨List.all_eq_true.mp hall, ?_⟩
        rcases List.any_eq_true.mp ha with ⟨f, hf, hbf⟩
        exact ⟨f, hf, by simpa using hbf⟩
      · intro hh
        exact List.all_eq_true.mpr hh.1
    · rw [if_neg ha]
      simp only [Bool.false_eq_true, false_iff]
      intro hh
      rcases hh.2 with ⟨f, hf, hne⟩
      exact ha (List.any_eq_true.mpr ⟨f, hf, by simpa using hne⟩)
  · intro h
    unfold overallMatch
    rw [if_neg]
    intro ha
    rcases List.any_eq_true.mp ha with ⟨f, hf, hbf⟩
    have hne : data.get f ≠ "" := by simpa using hbf
    exact hne (h f hf)

/-- Witness for C1: a fully empty extracted record is never an overall
match, even against a non-empty SSOT record. -/
theorem C1_comparator_match_witness :
    overallMatch ⟨"", "", "", "", "", ""⟩ ⟨"Acme", "", "", "", "", ""⟩ = false :=
  (C1_comparator_match ⟨"", "", "", "", "", ""⟩ ⟨"Acme", "", "", "", "", ""⟩).2.2
    (by
      intro f hf
      fin_cases hf <;> rfl)

/-- C9: phone normalization of a non-blank input keeps exactly the digits,
returning the last ten when at least ten remain and all of them otherwise;
the three sample formats all normalize to 6195550100. -/
theorem C9_phone_normalization (s : String) (h : pyStrip s ≠ "") :
    (normalize "phone" s =
      (if 10 ≤ (s.data.filter pyDigit).length then
        String.mk ((s.data.filter pyDigit).drop ((s.data.filter pyDigit).length - 10))
      else String.mk (s.data.filter pyDigit)))
  ∧ normalize "phone" "(619) 555-0100" = "6195550100"
  ∧ normalize "phone" "619-555-0100" = "6195550100"
  ∧ normalize "phone" "+1 619 555 0100" = "6195550100" := by
  have hf : (pyStrip s).data.filter pyDigit = s.data.filter pyDigit := by
    show (trimBoth pySpace s.data).filter pyDigit = s.data.filter pyDigit
    exact filter_trimBoth pySpace_not_digit s.data
  refine ⟨?_, by rfl, by rfl, by rfl⟩
  simp only [normalize]
  rw [if_neg h, if_pos trivial, hf]

/-- Witness for C9 at a concrete non-blank phone string. -/
theorem C9_phone_normalization_witness :
    pyStrip "(619) 555-0100" ≠ ""
      ∧ normalize "phone" "(619) 555-0100" = "6195550100" :=
  ⟨by decide, (C9_phone_normalization "(619) 555-0100" (by decide)).2.1⟩

/-- C10: canonicalize_site_href is the identity on every non-empty link
target for every site other than yelp, redirect unwrapping is triggered
only for yelp, and an empty-string link target is mapped to absent. -/
theorem C10_canonicalize_identity :
    (∀ site h, site ≠ "yelp" → h ≠ "" →
      canonicalize_site_href site (some h) = some h)
  ∧ (∀ site, canonicalize_site_href site (some "") = none)
  ∧ (∀ site, canonicalize_site_href site none = none) := by
  refine ⟨?_, ?_, ?_⟩
  · intro site h hs hh
    show (if h = "" then none
      else if (site = "yelp" && strContains h "biz_redir") = true then _ else some h) = some h
    rw [if_neg hh, if_neg (by simp [hs])]
  · intro site
    rfl
  · intro site
    rfl

/-- Witness for C10: a non-yelp site passes a wrapped-looking target
through unchanged, and an empty target becomes absent. -/
theorem C10_canonicalize_identity_witness :
    canonicalize_site_href "google" (some "https://x.com/biz_redir?url=a")
        = some "https://x.com/biz_redir?url=a"
      ∧ canonicalize_site_href "google" (some "") = none :=
  ⟨(C10_canonicalize_identity).1 "google" "https://x.com/biz_redir?url=a"
      (by decide) (by decide),
    (C10_canonicalize_identity).2.1 "google"⟩

/-- C7: the Link Canonicalizer maps absent input to absent output; for
yelp, a target carrying the biz_redir marker is URL-parsed, the first
value of the url query parameter extracted and, when present, unquoted
and returned; when the marker is absent or URL parsing fails the raw
target is returned unchanged (inside the program a parse error raised by
urlparse is caught by the surrounding except and the raw target returned;
in the embedding the parser itself returns the error value, so the
function is total and never raises).  The URL-parsing clauses are stated
for ASCII targets, on which the embedded parser is exact. -/
theorem C7_redirect_unwrapping :
    (∀ site, canonicalize_site_href site none = none)
  ∧ (∀ site h, h ≠ "" → strContains h "biz_redir" = false →
      canonicalize_site_href site (some h) = some h)
  ∧ (∀ h, h ≠ "" → isAscii h = true → strContains h "biz_redir" = true →
      pyUrlparse h = Except.error () →
      canonicalize_site_href "yelp" (some h) = some h)
  ∧ (∀ h p t, h ≠ "" → isAscii h = true → strContains h "biz_redir" = true →
      pyUrlparse h = Except.ok p →
      qsFirst (parseQsl p.query) "url" = some t → t ≠ "" →
      canonicalize_site_href "yelp" (some h) = some (pyUnquote t)) := by
  refine ⟨fun site => rfl, ?_, ?_, ?_⟩
  · intro site h hh hm
    show (if h = "" then none
      else if (site = "yelp" && strContains h "biz_redir") = true then _ else some h) = some h
    rw [if_neg hh, if_neg (by simp [hm])]
  · intro h hh _ hm hp
    show (if h = "" then none
      else if ("yelp" = "yelp" && strContains h "biz_redir") = true then
        (match pyUrlparse h with
          | Except.error _ => some h
          | Except.ok p =>
            match qsFirst (parseQsl p.query) "url" with
            | some t => if t ≠ "" then some (pyUnquote t) else some h
            | none => some h)
      else some h) = some h
    rw [if_neg hh, if_pos (by simp [hm]), hp]
  · intro h p t hh _ hm hp hq ht
    show (if h = "" then none
      else if ("yelp" = "yelp" && strContains h "biz_redir") = true then
        (match pyUrlparse h with
          | Except.error _ => some h
          | Except.ok p =>
            match qsFirst (parseQsl p.query) "url" with
            | some t => if t ≠ "" then some (pyUnquote t) else some h
            | none => some h)
      else some h) = some (pyUnquote t)
    rw [if_neg hh, if_pos (by simp [hm]), hp]
    show (match qsFirst (parseQsl p.query) "url" with
      | some t => if t ≠ "" then some (pyUnquote t) else some h
      | none => some h) = some (pyUnquote t)
    rw [hq]
    show (if t ≠ "" then some (pyUnquote t) else some h) = some (pyUnquote t)
    rw [if_pos ht]

/-- Witness for C7 on a concrete yelp-wrapped target with an encoded url
parameter. -/
theorem C7_redirect_unwrapping_witness :
    canonicalize_site_href "yelp"
        (some "https://www.yelp.com/biz_redir?url=https%3A%2F%2Facme.com&s=1")
      = some "https://acme.com" := by
  have h4 := (C7_redirect_unwrapping).2.2.2
    "https://www.yelp.com/biz_redir?url=https%3A%2F%2Facme.com&s=1"
    ⟨"https", "www.yelp.com", "/biz_redir", "", "url=https%3A%2F%2Facme.com&s=1", ""⟩
    "https://acme.com" (by decide) (by decide) (by decide) (by rfl) (by rfl) (by decide)
  exact h4.trans (by rfl)

/-- C4: when the first match of an expression is an element, the Locator
Evaluator returns the anchor text and href when the element is itself an
anchor, else the first pre-order descendant anchor text and href, else the
element text and an absent target, where the text is flattened (whitespace
runs collapsed to single spaces and surrounding whitespace trimmed, as the
final conjunct states of the textify helper). -/
theorem C4_element_extraction (t : String) (a : List (String × String))
    (ch : List Html) (rest : List XPathItem) :
    (extract_with_xpath (XPathValue.nodeset (XPathItem.element t a ch :: rest)) =
      if pyLower t = "a" then
        Except.ok (flattenedText (textContent (Html.el t a ch)), getAttr a "href")
      else
        match firstAnchorDesc ch with
        | some (Html.el t2 a2 ch2) =>
          Except.ok (flattenedText (textContent (Html.el t2 a2 ch2)), getAttr a2 "href")
        | _ =>
          Except.ok (flattenedText (textContent (Html.el t a ch)), none))
    ∧ (∀ s, pyTextify s = flattenedText s) := by
  refine ⟨?_, pyTextify_eq_flattened⟩
  rw [extract_element_eq]
  by_cases hA : pyLower t = "a"
  · rw [if_pos hA, if_pos hA, pyTextify_eq_flattened]
  · rw [if_neg hA, if_neg hA, firstAnchorDesc_eq_head?]
    cases hAn : anchorsInList ch with
    | nil => simp [pyTextify_eq_flattened]
    | cons n2 rest2 =>
      cases n2 with
      | el t2 a2 ch2 => simp [pyTextify_eq_flattened]
      | txt s2 => simp [pyTextify_eq_flattened]

/-- C5 counterexample: a truthy numeric XPath evaluation result (for
example count(//a) on a page with at least one anchor) reaches the Python
subscript in _first outside the try block and raises TypeError, so the
Locator Evaluator does not absorb every outcome. -/
theorem C5_never_raises_cex :
    extract_with_xpath (XPathValue.num true) = Except.error PyExc.typeErr := rfl

/-- C5 amended: evaluation errors and empty matches yield ("", absent),
and the evaluator returns normally whenever the first node-set item is an
element or a string, and for string, zero and false results; the only
raising outcomes are a truthy numeric or boolean expression result
(TypeError) and a node-set led by a comment, processing-instruction or
namespace item (AttributeError). -/
theorem C5_never_raises_amended :
    (extract_with_xpath XPathValue.evalErr = Except.ok ("", none))
  ∧ (extract_with_xpath (XPathValue.nodeset []) = Except.ok ("", none))
  ∧ (∀ t a ch rest, ∃ r,
      extract_with_xpath (XPathValue.nodeset (XPathItem.element t a ch :: rest))
        = Except.ok r)
  ∧ (∀ s rest, extract_with_xpath (XPathValue.nodeset (XPathItem.str s :: rest))
      = Except.ok (pyTextify s, none))
  ∧ (∀ s, ∃ r, extract_with_xpath (XPathValue.str s) = Except.ok r)
  ∧ (extract_with_xpath (XPathValue.num false) = Except.ok ("", none))
  ∧ (extract_with_xpath (XPathValue.bool false) = Except.ok ("", none))
  ∧ (∀ v e, extract_with_xpath v = Except.error e →
      (v = XPathValue.num true ∧ e = PyExc.typeErr)
      ∨ (v = XPathValue.bool true ∧ e = PyExc.typeErr)
      ∨ (∃ c rest, v = XPathValue.nodeset (c :: rest) ∧ e = PyExc.attributeErr
          ∧ ((∃ s, c = XPathItem.comment s) ∨ (∃ p u, c = XPathItem.nstuple p u)))) := by
  refine ⟨rfl, rfl, ?_, fun s rest => rfl, ?_, rfl, rfl, ?_⟩
  · intro t a ch rest
    by_cases hA : pyLower t = "a"
    · exact ⟨(pyTextify (textContent (Html.el t a ch)), getAttr a "href"), by
        rw [extract_element_eq, if_pos hA]⟩
    · cases hAn : anchorsInList ch with
      | nil =>
        exact ⟨(pyTextify (textContent (Html.el t a ch)), none), by
          rw [extract_element_eq, if_neg hA, hAn]⟩
      | cons n2 rest2 =>
        cases n2 with
        | el t2 a2 ch2 =>
          exact ⟨(pyTextify (textContent (Html.el t2 a2 ch2)), getAttr a2 "href"), by
            rw [extract_element_eq, if_neg hA, hAn]⟩
        | txt s2 =>
          exact ⟨(pyTextify (textContent (Html.el t a ch)), none), by
            rw [extract_element_eq, if_neg hA, hAn]⟩
  · intro s
    rw [extract_str_eq]
    cases hs : s.data with
    | nil => exact ⟨("", none), rfl⟩
    | cons c r => exact ⟨(pyTextify ⟨[c]⟩, none), rfl⟩
  · intro v e hve
    cases v with
    | evalErr => exact Except.noConfusion hve
    | nodeset items =>
      cases items with
      | nil => exact Except.noConfusion hve
      | cons item rest =>
        cases item with
        | str s => exact Except.noConfusion hve
        | element t a ch =>
          rw [extract_element_eq] at hve
          by_cases hA : pyLower t = "a"
          · rw [if_pos hA] at hve
            exact Except.noConfusion hve
          · rw [if_neg hA] at hve
            cases hAn : anchorsInList ch with
            | nil =>
              rw [hAn] at hve
              exact Except.noConfusion hve
            | cons n2 rest2 =>
              cases n2 with
              | el t2 a2 ch2 =>
                rw [hAn] at hve
                exact Except.noConfusion hve
              | txt s2 =>
                rw [hAn] at hve
                exact Except.noConfusion hve
        | comment s =>
          injection hve with he
          exact Or.inr (Or.inr ⟨XPathItem.comment s, rest, rfl, he.symm, Or.inl ⟨s, rfl⟩⟩)
        | nstuple p u =>
          injection hve with he
          exact Or.inr (Or.inr ⟨XPathItem.nstuple p u, rest, rfl, he.symm,
            Or.inr ⟨p, u, rfl⟩⟩)
    | str s =>
      rw [extract_str_eq] at hve
      cases hs : s.data with
      | nil =>
        rw [hs] at hve
        exact Except.noConfusion hve
      | cons c r =>
        rw [hs] at hve
        exact Except.noConfusion hve
    | num nz =>
      cases nz with
      | false => exact Except.noConfusion hve
      | true =>
        injection hve with he
        exact Or.inl ⟨rfl, he.symm⟩
    | bool b =>
      cases b with
      | false => exact Except.noConfusion hve
      | true =>
        injection hve with he
        exact Or.inr (Or.inl ⟨rfl, he.symm⟩)

/-- Witness for the amended C5: a node-set led by a comment node raises
AttributeError, and the theorem identifies it. -/
theorem C5_never_raises_amended_witness :
    (XPathValue.nodeset [XPathItem.comment "note"] = XPathValue.num true
        ∧ PyExc.attributeErr = PyExc.typeErr)
    ∨ (XPathValue.nodeset [XPathItem.comment "note"] = XPathValue.bool true
        ∧ PyExc.attributeErr = PyExc.typeErr)
    ∨ (∃ c rest, XPathValue.nodeset [XPathItem.comment "note"]
          = XPathValue.nodeset (c :: rest)
        ∧ PyExc.attributeErr = PyExc.attributeErr
        ∧ ((∃ s, c = XPathItem.comment s) ∨ (∃ p u, c = XPathItem.nstuple p u))) :=
  (C5_never_raises_amended).2.2.2.2.2.2.2
    (XPathValue.nodeset [XPathItem.comment "note"]) PyExc.attributeErr rfl

/-- C6 counterexample: a detector whose first match is an anchor carrying
an empty href attribute yields a present (but empty) link target, and the
code resolves layout type2, not type1. -/
theorem C6_layout_resolution_cex :
    extract_with_xpath (XPathValue.nodeset [XPathItem.element "a" [("href", "")] []])
        = Except.ok ("", some "")
      ∧ resolveLayout (some "//a[1]")
          (XPathValue.nodeset [XPathItem.element "a" [("href", "")] []])
        = Except.ok "type2" := ⟨rfl, rfl⟩

/-- C6 amended: with no configured (or an empty) detector expression the
layout defaults to type1; with a detector, the layout is type1 exactly
when the evaluation yields non-empty text or a non-empty link target, and
type2 otherwise. -/
theorem C6_layout_resolution_amended :
    (∀ r, resolveLayout none r = Except.ok "type1")
  ∧ (∀ r, resolveLayout (some "") r = Except.ok "type1")
  ∧ (∀ d r txt href, d ≠ "" →
      extract_with_xpath r = Except.ok (txt, href) →
      ((txt ≠ "" ∨ ∃ h2, href = some h2 ∧ h2 ≠ "") →
        resolveLayout (some d) r = Except.ok "type1")
      ∧ (txt = "" → (∀ h2, href = some h2 → h2 = "") →
        resolveLayout (some d) r = Except.ok "type2")) := by
  refine ⟨fun r => rfl, fun r => rfl, ?_⟩
  intro d r txt href hd he
  have hbase : resolveLayout (some d) r =
      Except.ok (if ((txt != "") || optTruthy href) = true then "type1" else "type2") := by
    show (if d = "" then Except.ok "type1"
      else match extract_with_xpath r with
        | Except.error e => Except.error e
        | Except.ok (txt, href) =>
          Except.ok (if ((txt != "") || optTruthy href) = true then "type1" else "type2"))
      = _
    rw [if_neg hd, he]
  constructor
  · intro hcase
    have hcond : ((txt != "") || optTruthy href) = true := by
      rcases hcase with hc | ⟨h2, hh2, hn2⟩
      · simp [hc]
      · rw [hh2]
        simp [optTruthy, hn2]
    rw [hbase, if_pos hcond]
  · intro h0 hall
    have hcond : ((txt != "") || optTruthy href) = false := by
      rw [h0]
      cases href with
      | none => rfl
      | some h2 =>
        rw [hall h2 rfl]
        rfl
    rw [hbase, if_neg (by simp [hcond])]

/-- Witness for the amended C6: a detector matching a headline element
with text resolves type1. -/
theorem C6_layout_resolution_amended_witness :
    resolveLayout (some "//h1")
        (XPathValue.nodeset [XPathItem.element "h1" [] [Html.txt "Hi"]])
      = Except.ok "type1" :=
  (((C6_layout_resolution_amended).2.2 "//h1"
      (XPathValue.nodeset [XPathItem.element "h1" [] [Html.txt "Hi"]])
      "Hi" none (by decide) (by rfl)).1) (Or.inl (by decide))

/-- C8 counterexample: href.replace removes every occurrence of "tel:",
not just the leading prefix, so a target of tel:tel:123 yields 123 and
not the remainder tel:123 after the prefix. -/
theorem C8_phone_postprocessing_cex :
    phoneResultField "visible" (some "tel:tel:123") = "123"
      ∧ ("123" : String) ≠ String.mk ("tel:tel:123".data.drop 4) := by
  exact ⟨rfl, by decide⟩

/-- C8 amended: an absent or non-tel link target leaves the extracted
text; a target starting with "tel:" yields the target with every
occurrence of "tel:" removed, which equals the remainder after the prefix
whenever that remainder contains no further occurrence. -/
theorem C8_phone_postprocessing_amended (txt h : String) :
    (phoneResultField txt none = txt)
  ∧ (pyStartsWith h "tel:" = false → phoneResultField txt (some h) = txt)
  ∧ (pyStartsWith h "tel:" = true →
      phoneResultField txt (some h) = String.mk (removeTel h.data))
  ∧ (pyStartsWith h "tel:" = true →
      containsSub "tel:".data (h.data.drop 4) = false →
      phoneResultField txt (some h) = String.mk (h.data.drop 4)) := by
  have hshape : pyStartsWith h "tel:" = true →
      ∃ r, h.data = 't' :: 'e' :: 'l' :: ':' :: r := by
    intro hs
    unfold pyStartsWith at hs
    rcases List.isPrefixOf_iff_prefix.mp hs with ⟨r, hr⟩
    exact ⟨r, hr.symm⟩
  refine ⟨rfl, ?_, ?_, ?_⟩
  · intro hs
    show (if ((h != "") && pyStartsWith h "tel:") = true then String.mk (removeTel h.data)
      else txt) = txt
    rw [if_neg (by simp [hs])]
  · intro hs
    obtain ⟨r, hr⟩ := hshape hs
    have hne : h ≠ "" := by
      intro he
      rw [he] at hr
      simp at hr
    show (if ((h != "") && pyStartsWith h "tel:") = true then String.mk (removeTel h.data)
      else txt) = String.mk (removeTel h.data)
    rw [if_pos (by simp [bne_iff_ne, hs, hne])]
  · intro hs hnc
    obtain ⟨r, hr⟩ := hshape hs
    have hne : h ≠ "" := by
      intro he
      rw [he] at hr
      simp at hr
    show (if ((h != "") && pyStartsWith h "tel:") = true then String.mk (removeTel h.data)
      else txt) = String.mk (h.data.drop 4)
    rw [if_pos (by simp [bne_iff_ne, hs, hne])]
    rw [hr] at hnc ⊢
    congr 1
    have h1 : removeTel ('t' :: 'e' :: 'l' :: ':' :: r) = removeTel r := rfl
    have h2 : List.drop 4 ('t' :: 'e' :: 'l' :: ':' :: r) = r := rfl
    rw [h1, h2]
    exact removeTel_eq_self hnc

/-- Witness for the amended C8 on a realistic tel link. -/
theorem C8_phone_postprocessing_amended_witness :
    phoneResultField "visible" (some "tel:+16195550100") = "+16195550100" := by
  have h3 := (C8_phone_postprocessing_amended "visible" "tel:+16195550100").2.2.2
    (by decide) (by decide)
  exact h3.trans (by decide)

/-- C3 counterexample: the website_url normalizer lower-cases only the
host, so HTTP://Example.com/Page/ normalizes to http://example.com/Page
and not to the all-lower-cased URL the claim states. -/
theorem C3_url_normalization_cex :
    normalize "website_url" "HTTP://Example.com/Page/" = "http://example.com/Page"
      ∧ ("http://example.com/Page" : String) ≠ "http://example.com/page" := by
  exact ⟨by rfl, by decide⟩

/-- C3 amended: for a non-blank input that parses, the result is the
scheme (https when absent) plus the lower-cased host plus the path with
all trailing slashes stripped and its letter case preserved; on parse
failure (inside the program a ValueError caught by the except clause) the
trimmed lower-cased raw string is returned; the first spec example
therefore normalizes to http://example.com/Page.  The parsing clauses are
stated for ASCII inputs, on which the embedded parser is exact. -/
theorem C3_url_normalization_amended :
    (∀ s p, pyStrip s ≠ "" → isAscii s = true →
      pyUrlparse (pyStrip s) = Except.ok p →
      normalize "website_url" s =
        (if p.scheme = "" then "https" else p.scheme) ++ "://"
          ++ pyLower p.netloc ++ String.mk (trimRight (fun c => c = '/') p.path.data))
  ∧ (∀ s, pyStrip s ≠ "" → isAscii s = true →
      pyUrlparse (pyStrip s) = Except.error () →
      normalize "website_url" s = pyLower (pyStrip s))
  ∧ normalize "website_url" "HTTP://Example.com/Page/" = "http://example.com/Page"
  ∧ normalize "website_url" "example.com/page" = "https://example.com/page" := by
  refine ⟨?_, ?_, by rfl, by rfl⟩
  · intro s p hs _ hp
    simp only [normalize]
    rw [if_neg hs, if_neg (by decide), if_neg (by decide), if_pos (by decide), hp]
  · intro s hs _ hp
    simp only [normalize]
    rw [if_neg hs, if_neg (by decide), if_neg (by decide), if_pos (by decide), hp]
    show pyLower (pyStrip (pyStrip s)) = pyLower (pyStrip s)
    rw [pyStrip_pyStrip]

/-- Witness for the amended C3 at the first spec example. -/
theorem C3_url_normalization_amended_witness :
    normalize "website_url" "HTTP://Example.com/Page/"
      = (if ("http" : String) = "" then "https" else "http") ++ "://"
        ++ pyLower "Example.com"
        ++ String.mk (trimRight (fun c => c = '/') ("/Page/" : String).data) :=
  (C3_url_normalization_amended).1 "HTTP://Example.com/Page/"
    ⟨"http", "Example.com", "/Page/", "", "", ""⟩ (by decide) (by decide) (by rfl)

/-- C2 counterexample: normalize is not idempotent for website_url.  A
URL with a scheme but no slashes, such as http:Example.com, first
normalizes to http://Example.com; re-normalizing parses Example.com as
the netloc and lower-cases it, giving the different string
http://example.com. -/
theorem C2_normalize_idempotent_cex :
    normalize "website_url" (normalize "website_url" "http:Example.com")
      ≠ normalize "website_url" "http:Example.com" := by
  decide

/-- C2 amended: normalize is idempotent for every field kind other than
website_url. -/
theorem C2_normalize_idempotent_amended (f x : String) (hf : f ≠ "website_url") :
    normalize f (normalize f x) = normalize f x := by
  by_cases hx : pyStrip x = ""
  · have h1 : normalize f x = "" := by
      simp only [normalize]
      rw [if_pos hx]
    rw [h1]
    simp only [normalize]
    rw [if_pos (by rfl)]
  · by_cases hph : f = "phone"
    · subst hph
      have h1 : normalize "phone" x =
          (if 10 ≤ ((pyStrip x).data.filter pyDigit).length then
            String.mk (((pyStrip x).data.filter pyDigit).drop
              (((pyStrip x).data.filter pyDigit).length - 10))
          else String.mk ((pyStrip x).data.filter pyDigit)) := by
        simp only [normalize]
        rw [if_neg hx, if_pos trivial]
      have hkey : ∀ d : List Char, (∀ c ∈ d, pyDigit c = true) → d.length ≤ 10 →
          normalize "phone" (String.mk d) = String.mk d := by
        intro d hd hlen
        have hnosp : ∀ c ∈ d, pySpace c = false :=
          fun c hc => pyDigit_not_space c (hd c hc)
        have hstr : pyStrip (String.mk d) = String.mk d := by
          show (⟨trimBoth pySpace d⟩ : String) = _
          rw [trimBoth_eq_self_of_all_false hnosp]
        by_cases hdnil : d = []
        · rw [hdnil]
          rfl
        · simp only [normalize]
          rw [hstr, if_neg (fun he => hdnil (congrArg String.data he)), if_pos trivial]
          have hfd : (String.mk d).data.filter pyDigit = d := by
            show d.filter pyDigit = d
            exact List.filter_eq_self.mpr (by intro a ha; exact hd a ha)
          rw [hfd]
          by_cases h10 : 10 ≤ d.length
          · have hlq : d.length = 10 := by omega
            rw [if_pos h10, hlq]
            simp
          · rw [if_neg h10]
      rw [h1]
      have hdig : ∀ c ∈ (pyStrip x).data.filter pyDigit, pyDigit c = true :=
        fun c hc => (List.mem_filter.mp hc).2
      by_cases h10 : 10 ≤ ((pyStrip x).data.filter pyDigit).length
      · rw [if_pos h10]
        apply hkey
        · intro c hc
          exact hdig c (List.drop_subset _ _ hc)
        · rw [List.length_drop]
          omega
      · rw [if_neg h10]
        apply hkey _ hdig
        omega
    · by_cases htx : (f = "entity_name" || f = "address" || f = "hours"
          || f = "website_anchor") = true
      · have h1 : normalize f x = pyUpper (pyStrip ⟨collapseWS (pyStrip x).data⟩) := by
          simp only [normalize]
          rw [if_neg hx, if_neg hph, if_pos htx]
        set y := (pyStrip x).data with hy
        set w := trimBoth pySpace (collapseWS y) with hw
        have hr : pyUpper (pyStrip ⟨collapseWS y⟩) = ⟨w.map upChar⟩ := rfl
        have hchainw : w.Chain' spacePair := chain_trimBoth (squeeze_chain (spaceNorm y))
        have hchainr : (w.map upChar).Chain' spacePair := chain_map_upChar hchainw
        have honly : ∀ c ∈ w.map upChar, pySpace c = true → c = ' ' := by
          intro c hc hsp
          rcases List.mem_map.mp hc with ⟨a, ha, hac⟩
          have ha2 : a ∈ collapseWS y := mem_of_mem_trimBoth ha
          have ha3 : a ∈ spaceNorm y := mem_of_mem_squeeze ha2
          have hspa : pySpace a = true := by
            rw [← pySpace_upChar a, hac]
            exact hsp
          have haeq : a = ' ' := mem_spaceNorm_space ha3 hspa
          rw [← hac, haeq]
          decide
        have hedges1 : ∀ c, (w.map upChar).head? = some c → pySpace c = false := by
          intro c hc
          rw [List.head?_map] at hc
          cases hww : w.head? with
          | none => rw [hww] at hc; simp at hc
          | some a =>
            rw [hww] at hc
            simp at hc
            rw [← hc, pySpace_upChar]
            exact head?_trimBoth_false hww
        have hedges2 : ∀ c, (w.map upChar).getLast? = some c → pySpace c = false := by
          intro c hc
          rw [List.getLast?_map] at hc
          cases hww : w.getLast? with
          | none => rw [hww] at hc; simp at hc
          | some a =>
            rw [hww] at hc
            simp at hc
            rw [← hc, pySpace_upChar]
            exact getLast?_trimRight_false hww
        have hstripR : trimBoth pySpace (w.map upChar) = w.map upChar :=
          trimBoth_eq_self_of_edges hedges1 hedges2
        have hfix : spaceNorm (w.map upChar) = w.map upChar := by
          apply map_id_of_fix
          intro a ha
          by_cases hsp : pySpace a = true
          · rw [if_pos hsp]
            exact (honly a ha hsp).symm
          · rw [if_neg hsp]
        have hsq : squeezeSpaces (w.map upChar) = w.map upChar := squeeze_eq_self hchainr
        have hupfix : (w.map upChar).map upChar = w.map upChar := by
          rw [List.map_map]
          have hcomp : upChar ∘ upChar = upChar := funext upChar_upChar
          rw [hcomp]
        have hyne : y ≠ [] := by
          intro h0
          apply hx
          have hpx : pyStrip x = ⟨y⟩ := rfl
          rw [hpx, h0]
        obtain ⟨c0, t0, hy0⟩ : ∃ c0 t0, y = c0 :: t0 := by
          cases hyy : y with
          | nil => exact absurd hyy hyne
          | cons a b => exact ⟨a, b, rfl⟩
        have hc0 : pySpace c0 = false := by
          apply head?_trimBoth_false (p := pySpace) (l := x.data)
          show (trimBoth pySpace x.data).head? = some c0
          have hyx : trimBoth pySpace x.data = y := rfl
          rw [hyx, hy0]
          rfl
        have hmem : upChar c0 ∈ w.map upChar := by
          apply List.mem_map_of_mem
          apply mem_trimBoth_of_false _ hc0
          apply mem_squeeze_of_ne_space
          · intro he
            rw [he] at hc0
            simp [pySpace] at hc0
          · have hsn : spaceNorm y = c0 :: spaceNorm t0 := by
              rw [hy0, spaceNorm_cons, if_neg (by simp [hc0])]
            rw [hsn]
            simp
        have hrne : w.map upChar ≠ [] := List.ne_nil_of_mem hmem
        rw [h1, hr]
        simp only [normalize]
        have hstr : pyStrip ⟨w.map upChar⟩ = ⟨w.map upChar⟩ := by
          show (⟨trimBoth pySpace (w.map upChar)⟩ : String) = _
          rw [hstripR]
        rw [hstr, if_neg (fun he => hrne (congrArg String.data he)), if_neg hph, if_pos htx]
        show pyUpper (pyStrip ⟨collapseWS (w.map upChar)⟩) = ⟨w.map upChar⟩
        have hcoll : collapseWS (w.map upChar) = w.map upChar := by
          unfold collapseWS
          rw [hfix, hsq]
        rw [hcoll, hstr]
        show (⟨(w.map upChar).map upChar⟩ : String) = ⟨w.map upChar⟩
        rw [hupfix]
      · have h1 : normalize f x = pyStrip x := by
          simp only [normalize]
          rw [if_neg hx, if_neg hph, if_neg htx, if_neg hf]
        rw [h1]
        simp only [normalize]
        rw [pyStrip_pyStrip, if_neg hx, if_neg hph, if_neg htx, if_neg hf]

/-- Witness for the amended C2 at the phone field kind. -/
theorem C2_normalize_idempotent_amended_witness :
    normalize "phone" (normalize "phone" "(619) 555-0100")
      = normalize "phone" "(619) 555-0100" :=
  C2_normalize_idempotent_amended "phone" "(619) 555-0100" (by decide)

end ListingAgent
